import Mathlib

/-!
Verification of the schema-flattening core of `generate_fhir_data.py`
(repository FHIRDataGenerator).

The development shallowly embeds the Python functions
`unwrap_optional_and_list`, `to_snake_case`, `to_camel_case`,
`to_pascal_case`, `apply_case_style` and `flatten_schema`.

Modelling choices:
* A Python string is modelled as the list of its character code points,
  `List Nat` (abbreviated `PStr`).  `str2l` converts a Lean string literal
  to this representation.  The single-character classification and mapping
  functions `str.isupper` / `str.islower` / `str.lower` / `str.upper` are
  modelled on their ASCII fragment (`pyIsUpper`, `pyIsLower`, `pyToLower`,
  `pyToUpper`); column names in this program are ASCII identifiers.
* A field type annotation built from `Optional[...]` and `List[...]`
  wrappers is the inductive `Ty α`, with `α` the payload of the innermost
  (non-Optional, non-List) type.  For the flattener the payload is
  `InnerTy`: a primitive type, a Pydantic composite model carrying its own
  ordered field list, or an unrecognized/other type.
* Python's generally-recursive functions are embedded with an explicit
  fuel argument (structural recursion), with the top-level wrapper
  supplying enough fuel; `unwrap_optional_and_list` always gets enough
  fuel (`tySize`), and `flatten_schema` gets exactly the remaining depth
  budget `(max_depth - depth).toNat`, which mirrors the source's
  depth-cutoff termination argument.
-/

/-- A Python string, as the list of its character code points. -/
abbrev PStr := List Nat

/-- Convert a Lean string literal to its code-point list. -/
def str2l (s : String) : PStr := s.toList.map Char.toNat

/-- The code point of the underscore character. -/
def usc : Nat := 95

/-- ASCII fragment of Python's single-character `str.isupper`. -/
def pyIsUpper (c : Nat) : Bool := 65 ≤ c && c ≤ 90

/-- ASCII fragment of Python's single-character `str.islower`. -/
def pyIsLower (c : Nat) : Bool := 97 ≤ c && c ≤ 122

/-- ASCII fragment of Python's single-character `str.lower`. -/
def pyToLower (c : Nat) : Nat := if pyIsUpper c then c + 32 else c

/-- ASCII fragment of Python's single-character `str.upper`. -/
def pyToUpper (c : Nat) : Nat := if pyIsLower c then c - 32 else c

/-- Decimal rendering of a natural number, as Python's `f"{i}"` produces
for the nonnegative loop indices of `flatten_schema`. -/
def natStr (n : Nat) : PStr := (Nat.toDigits 10 n).map Char.toNat

/-- Loop body of `to_snake_case`, processing the characters left to right.
`prev` is the character before the current one (`none` at index 0, which
encodes the source's `i > 0` test together with `name[i-1]`), and the
head of `rest` is the lookahead `name[i+1]`.  The emitted fragment is the
source's conditional `result.append('_')` followed by
`result.append(char.lower())`. -/
def snakeAux : Option Nat → PStr → PStr
  | _, [] => []
  | prev, c :: rest =>
    (if pyIsUpper c && (match prev with
        | none => false
        | some p => pyIsLower p || (match rest with
            | [] => false
            | d :: _ => pyIsLower d))
     then [usc, pyToLower c]
     else [pyToLower c]) ++ snakeAux (some c) rest

/-- Python `to_snake_case` from `generate_fhir_data.py`:
insert `_` before an uppercase character that is not first and whose
previous or next character is lowercase, and lowercase every character. -/
def to_snake_case (name : PStr) : PStr := snakeAux none name

/-- Python `str.split(sep)` with an explicit one-character separator:
no collapsing of adjacent separators, and the empty string splits into
`[""]`. -/
def pySplit (sep : Nat) : PStr → List PStr
  | [] => [[]]
  | c :: rest =>
    match pySplit sep rest with
    | [] => [[c]]
    | p :: ps => if c = sep then [] :: p :: ps else (c :: p) :: ps

/-- Python `str.capitalize`: first character uppercased, the rest
lowercased. -/
def pyCapitalize : PStr → PStr
  | [] => []
  | c :: rest => pyToUpper c :: rest.map pyToLower

/-- Python `to_camel_case`: snake-case first, split on `_`, keep the
first segment, capitalize and concatenate the remaining segments.
(`pySplit` never returns `[]`; the `[]` branch is unreachable.) -/
def to_camel_case (name : PStr) : PStr :=
  match pySplit usc (to_snake_case name) with
  | [] => []
  | p :: ps => p ++ (ps.map pyCapitalize).flatten

/-- Python `to_pascal_case`: snake-case first, split on `_`, capitalize
and concatenate every segment. -/
def to_pascal_case (name : PStr) : PStr :=
  ((pySplit usc (to_snake_case name)).map pyCapitalize).flatten

/-- Python `apply_case_style`: dispatch on the style string, identity for
any unrecognized style. -/
def apply_case_style (name : PStr) (style : PStr) : PStr :=
  if style = str2l "snake" then to_snake_case name
  else if style = str2l "camel" then to_camel_case name
  else if style = str2l "pascal" then to_pascal_case name
  else name

/-- A Python type annotation built by wrapping an inner payload `α` in
`Optional[...]` (`opt`, i.e. `Union[t, None]`) and `List[...]` (`lst`)
layers in any order. -/
inductive Ty (α : Type) where
  | base (t : α)
  | opt (t : Ty α)
  | lst (t : Ty α)
deriving DecidableEq, Repr

/-- Number of constructors of a `Ty`, used as fuel for the unwrapper. -/
def tySize {α : Type} : Ty α → Nat
  | .base _ => 1
  | .opt t => tySize t + 1
  | .lst t => tySize t + 1

/-- Fueled embedding of Python `unwrap_optional_and_list`.  The body of
the `fuel + 1` case is the source function: first the `Union` (Optional)
check — when the annotation is `Optional[t]` the flags
`(is_list, inner_type)` are taken from the recursive call on `t` but its
`is_optional` component is discarded (`_, is_list, inner_type = ...`) —
then the list check on the resulting `inner_type`, which on a
`List[u]` sets `is_list`, and takes only `inner_type` from the recursive
call on `u`, discarding the element's flags (`is_optional_elem, _,
inner_type = ...`). -/
def unwrapF {α : Type} : Nat → Ty α → Bool × Bool × Ty α
  | 0, t => (false, false, t)
  | fuel + 1, field_type =>
    let s1 : Bool × Bool × Ty α :=
      match field_type with
      | .opt t =>
        let r := unwrapF fuel t
        (true, r.2.1, r.2.2)
      | _ => (false, false, field_type)
    match s1.2.2 with
    | .lst u =>
      let r := unwrapF fuel u
      (s1.1, true, r.2.2)
    | _ => s1

/-- Python `unwrap_optional_and_list`, returning
`(is_optional, is_list, inner_type)`.  `tySize` fuel always suffices. -/
def unwrap_optional_and_list {α : Type} (t : Ty α) : Bool × Bool × Ty α :=
  unwrapF (tySize t) t

/-- Whether an `Optional` layer occurs anywhere in the nesting. -/
def hasOptLayer {α : Type} : Ty α → Bool
  | .base _ => false
  | .opt _ => true
  | .lst t => hasOptLayer t

/-- Whether a `List` layer occurs anywhere in the nesting.  (The wrappers
form a linear chain, so this is `true` exactly when some `lst` occurs in
the type.) -/
def hasLstLayer {α : Type} : Ty α → Bool
  | .base _ => false
  | .opt t => hasLstLayer t
  | .lst _ => true

/-- Whether the outermost wrapper is `Optional`. -/
def isOptTop {α : Type} : Ty α → Bool
  | .opt _ => true
  | _ => false

/-- The payload of the first non-Optional, non-List type reached. -/
def innerBase {α : Type} : Ty α → α
  | .base t => t
  | .opt t => innerBase t
  | .lst t => innerBase t

/-- The payload of an inner (fully unwrapped) type for the flattener:
a primitive (`str` / `int` / `float` / `bool` / `NoneType`), a Pydantic
composite model carrying its ordered `(field name, field type)` list, or
some other unrecognized type (e.g. `Any`).  The field list plays the role
of the source's `get_model_fields(model_cls)` with `get_field_type`
already applied to each entry. -/
inductive InnerTy where
  | prim (name : String)
  | comp (fields : List (PStr × Ty InnerTy))
  | otherTy (name : String)

/-- Python `is_primitive_type`: `str`/`int`/`float`/`bool`/`NoneType`
are primitive, and a `Union` is primitive when all of its arguments are
(`NoneType` is, so `Optional[t]` is primitive exactly when `t` is);
everything else, including `List[...]`, is not. -/
def is_primitive_type : Ty InnerTy → Bool
  | .base (.prim _) => true
  | .base _ => false
  | .opt t => is_primitive_type t
  | .lst _ => false

/-- Python `is_pydantic_model`: only a bare composite model class is a
Pydantic model; `Optional[...]` and `List[...]` annotations are not. -/
def is_pydantic_model : Ty InnerTy → Bool
  | .base (.comp _) => true
  | _ => false

/-- The field list of a composite inner type (the source's
`get_model_fields`, only ever used under an `is_pydantic_model` guard). -/
def innerFields : Ty InnerTy → List (PStr × Ty InnerTy)
  | .base (.comp fs) => fs
  | _ => []

/-- The `schema` section of the configuration, with the integer options
kept as integers so that negative configured values are representable
(the source reads them from JSON with no validation). -/
structure SchemaConfig where
  separator : PStr
  case_style : PStr
  max_depth : Int
  max_array_items : Int
  include_fields : List PStr
  exclude_fields : List PStr

/-- Body of the per-field loop of Python `flatten_schema`, with `recur`
standing for the recursive call `flatten_schema (· , config, ·, ·)`:
exclusion check, top-level inclusion check, optional/list unwrapping,
column base-name construction (`pfx` is the source's `prefix` argument),
and the list / composite / leaf column emission. -/
def flattenField (recur : List (PStr × Ty InnerTy) → PStr → Nat → List PStr)
    (config : SchemaConfig) (pfx : PStr) (depth : Nat)
    (fld : PStr × Ty InnerTy) : List PStr :=
  if fld.1 ∈ config.exclude_fields then []
  else if config.include_fields ≠ [] ∧ depth = 0 ∧ fld.1 ∉ config.include_fields then []
  else
    let u := unwrap_optional_and_list fld.2
    let is_list := u.2.1
    let inner_type := u.2.2
    let column_base := if pfx ≠ [] then pfx ++ config.separator ++ fld.1 else fld.1
    let column_name := apply_case_style column_base config.case_style
    if is_list then
      if is_primitive_type inner_type then
        (List.range config.max_array_items.toNat).map (fun i =>
          apply_case_style (column_base ++ config.separator ++ natStr i) config.case_style)
      else
        (List.range config.max_array_items.toNat).flatMap (fun i =>
          let idxPfx := column_base ++ config.separator ++ natStr i
          if is_pydantic_model inner_type then recur (innerFields inner_type) idxPfx (depth + 1)
          else [apply_case_style idxPfx config.case_style])
    else
      if is_pydantic_model inner_type then recur (innerFields inner_type) column_base (depth + 1)
      else [column_name]

/-- Fueled embedding of Python `flatten_schema`: the depth cutoff
`depth >= max_depth` first, then the per-field loop.  The fuel is the
remaining depth budget; `flatten_schema` below supplies exactly
`(max_depth - depth).toNat`, so `fuel = 0` coincides with the depth
cutoff. -/
def flattenF : Nat → List (PStr × Ty InnerTy) → SchemaConfig → PStr → Nat → List PStr
  | 0, _, _, _, _ => []
  | fuel + 1, fields, config, pfx, depth =>
    if config.max_depth ≤ (depth : Int) then []
    else fields.flatMap
      (flattenField (fun fs p d => flattenF fuel fs config p d) config pfx depth)

/-- Python `flatten_schema (model_cls, config, prefix, depth)`. -/
def flatten_schema (fields : List (PStr × Ty InnerTy)) (config : SchemaConfig)
    (pfx : PStr) (depth : Nat) : List PStr :=
  flattenF (config.max_depth - (depth : Int)).toNat fields config pfx depth

/-- Upper bound on the number of columns one field can contribute, with
`bnd` standing for the bound on the recursive flattening of a composite
inner type. -/
def fieldBound (bnd : List (PStr × Ty InnerTy) → Nat) (mai : Int)
    (fld : PStr × Ty InnerTy) : Nat :=
  let u := unwrap_optional_and_list fld.2
  if u.2.1 then
    if is_primitive_type u.2.2 then mai.toNat
    else if is_pydantic_model u.2.2 then mai.toNat * bnd (innerFields u.2.2)
    else mai.toNat
  else
    if is_pydantic_model u.2.2 then bnd (innerFields u.2.2)
    else 1

/-- Upper bound on the number of columns `flattenF` can emit, as a
function of the remaining depth budget, the model, and
`max_array_items` (the model fan-out is the field-list structure). -/
def flatten_bound : Nat → List (PStr × Ty InnerTy) → Int → Nat
  | 0, _, _ => 0
  | fuel + 1, fields, mai =>
    fields.foldr (fun fld acc =>
      fieldBound (fun fs => flatten_bound fuel fs mai) mai fld + acc) 0

/-- Index-based statement of the snake-case rule: an underscore is
inserted before exactly those uppercase characters that are not at index
0 and are preceded or followed by a lowercase character, and every
character is lowercased. -/
def snakeSpec (name : PStr) : PStr :=
  (List.range name.length).flatMap (fun i =>
    let c := name.getD i 0
    if pyIsUpper c && decide (0 < i) &&
        (pyIsLower (name.getD (i - 1) 0) ||
          (decide (i + 1 < name.length) && pyIsLower (name.getD (i + 1) 0)))
    then [usc, pyToLower c]
    else [pyToLower c])

/-- A string with its first character uppercased (Python
`s[:1].upper() + s[1:]`), used to state the camel/pascal relation. -/
def upperFirst : PStr → PStr
  | [] => []
  | c :: rest => pyToUpper c :: rest

/-- Whether a code point is an ASCII letter. -/
def pyIsLetter (c : Nat) : Bool := pyIsUpper c || pyIsLower c

/-- The model `{name: primitive, address: List-of-composite{line:
primitive}}` of the flattening scenarios. -/
def demoModel : List (PStr × Ty InnerTy) :=
  [(str2l "name", .base (.prim "str")),
   (str2l "address", .lst (.base (.comp [(str2l "line", .base (.prim "str"))])))]

/-- Scenario configuration `{max_depth: 2, max_array_items: 2,
separator: "_", case: "snake"}` with no include/exclude filters. -/
def cfgDepth2 : SchemaConfig :=
  { separator := str2l "_", case_style := str2l "snake", max_depth := 2,
    max_array_items := 2, include_fields := [], exclude_fields := [] }

/-- The same configuration with `max_depth: 1`. -/
def cfgDepth1 : SchemaConfig := { cfgDepth2 with max_depth := 1 }

/-- A configuration whose include and exclude filters both contain the
field name `a`. -/
def cfgBoth : SchemaConfig :=
  { cfgDepth2 with include_fields := [str2l "a"], exclude_fields := [str2l "a"] }

/-- The scenario configuration with `max_array_items: 0`. -/
def cfgNoArr : SchemaConfig := { cfgDepth2 with max_array_items := 0 }

/-- The scenario configuration with a negative `max_depth`. -/
def cfgNegD : SchemaConfig := { cfgDepth2 with max_depth := -1 }

/-- The scenario configuration with a negative `max_array_items`. -/
def cfgNegA : SchemaConfig := { cfgDepth2 with max_array_items := -1 }

/-- One emitted fragment of the snake-case loop, as a function of the
previous character (if any), the current character, and the next
character (if any). -/
def emitSpec (prev : Option Nat) (c : Nat) (next : Option Nat) : PStr :=
  if pyIsUpper c && prev.elim false (fun q => pyIsLower q || next.elim false pyIsLower)
  then [usc, pyToLower c]
  else [pyToLower c]

/-! ## Character-level facts -/

theorem pyIsUpper_eq (c : Nat) : pyIsUpper c = true ↔ 65 ≤ c ∧ c ≤ 90 := by
  simp [pyIsUpper]

theorem pyIsLower_eq (c : Nat) : pyIsLower c = true ↔ 97 ≤ c ∧ c ≤ 122 := by
  simp [pyIsLower]

theorem pyIsUpper_pyToLower (c : Nat) : pyIsUpper (pyToLower c) = false := by
  simp only [pyToLower]
  split
  · rename_i h
    rw [pyIsUpper_eq] at h
    simp only [pyIsUpper, Bool.and_eq_false_iff, decide_eq_false_iff_not, not_le]
    omega
  · rename_i h
    simp only [Bool.not_eq_true] at h
    exact h

theorem pyToLower_of_not_upper {c : Nat} (h : pyIsUpper c = false) : pyToLower c = c := by
  simp [pyToLower, h]

theorem pyToUpper_pyToUpper (c : Nat) : pyToUpper (pyToUpper c) = pyToUpper c := by
  simp only [pyToUpper]
  split
  · rename_i h
    rw [pyIsLower_eq] at h
    rw [if_neg]
    rw [pyIsLower_eq]
    omega
  · rfl

theorem pyToUpper_of_not_lower {c : Nat} (h : pyIsLower c = false) : pyToUpper c = c := by
  simp [pyToUpper, h]

/-! ## Characterization of `unwrap_optional_and_list` -/

theorem unwrapF_char {α : Type} :
    ∀ (fuel : Nat) (t : Ty α), tySize t ≤ fuel →
      unwrapF fuel t = (isOptTop t, hasLstLayer t, Ty.base (innerBase t)) := by
  intro fuel
  induction fuel with
  | zero =>
    intro t ht
    cases t <;> simp [tySize] at ht
  | succ n ih =>
    intro t ht
    cases t with
    | base b => rfl
    | opt t' =>
      have h' : tySize t' ≤ n := by simp only [tySize] at ht; omega
      simp [unwrapF, ih t' h', isOptTop, hasLstLayer, innerBase]
    | lst u =>
      have h' : tySize u ≤ n := by simp only [tySize] at ht; omega
      simp [unwrapF, ih u h', isOptTop, hasLstLayer, innerBase]

theorem unwrap_char {α : Type} (t : Ty α) :
    unwrap_optional_and_list t = (isOptTop t, hasLstLayer t, Ty.base (innerBase t)) :=
  unwrapF_char (tySize t) t (Nat.le_refl _)

/-- C1: the claim asserts `is_optional = true` iff an Optional layer is
present anywhere in the nesting, and in particular that
List-of-Optional-of-T unwraps to `(true, true, T)`.  The code refutes
this: on `List[Optional[T]]` the recursive unwrap of the list element
discards the element's `is_optional` flag, so the result is
`(false, true, T)` although an Optional layer is present. -/
theorem C1_counterexample :
    hasOptLayer (Ty.lst (Ty.opt (Ty.base "T"))) = true ∧
    unwrap_optional_and_list (Ty.lst (Ty.opt (Ty.base "T"))) ≠
      (true, true, Ty.base "T") ∧
    unwrap_optional_and_list (Ty.lst (Ty.opt (Ty.base "T"))) =
      (false, true, Ty.base "T") := by
  refine ⟨rfl, ?_, rfl⟩
  decide

/-- C1 (amended): for every nesting of Optional and List wrappers around
an inner type, `unwrap_optional_and_list` returns `is_optional = true`
iff the outermost wrapper is Optional (Optional layers inside a List are
ignored), `is_list = true` iff at least one List layer is present
anywhere in the nesting, and `inner_type` the first non-Optional
non-List type reached; in particular List-of-Optional-of-T unwraps to
`(false, true, T)`. -/
theorem C1_unwrap_amended {α : Type} (t : Ty α) :
    ((unwrap_optional_and_list t).1 = true ↔ isOptTop t = true) ∧
    ((unwrap_optional_and_list t).2.1 = true ↔ hasLstLayer t = true) ∧
    (unwrap_optional_and_list t).2.2 = Ty.base (innerBase t) := by
  rw [unwrap_char t]
  exact ⟨Iff.rfl, Iff.rfl, rfl⟩

/-! ## Snake-case idempotence -/

theorem mem_snakeAux_not_upper :
    ∀ (xs : PStr) (p : Option Nat) {c : Nat}, c ∈ snakeAux p xs → pyIsUpper c = false := by
  intro xs
  induction xs with
  | nil => intro p c h; simp [snakeAux] at h
  | cons a rest ih =>
    intro p c h
    simp only [snakeAux, List.mem_append] at h
    rcases h with h | h
    · have : c = usc ∨ c = pyToLower a := by
        split at h <;> simp at h <;> tauto
      rcases this with rfl | rfl
      · decide
      · exact pyIsUpper_pyToLower a
    · exact ih (some a) h

theorem snakeAux_fixed :
    ∀ (xs : PStr), (∀ c ∈ xs, pyIsUpper c = false) → ∀ (p : Option Nat), snakeAux p xs = xs := by
  intro xs
  induction xs with
  | nil => intro _ p; rfl
  | cons a rest ih =>
    intro h p
    have ha : pyIsUpper a = false := h a (List.mem_cons_self a rest)
    have hrest := ih (fun c hc => h c (List.mem_cons_of_mem a hc)) (some a)
    simp [snakeAux, ha, pyToLower_of_not_upper ha, hrest]

theorem to_snake_case_idem (x : PStr) :
    to_snake_case (to_snake_case x) = to_snake_case x :=
  snakeAux_fixed (to_snake_case x) (fun _ hc => mem_snakeAux_not_upper x none hc) none

/-- C2: the claim asserts idempotence of the case transform for all
three styles.  The code refutes it for `camel` and `pascal`: on input
`"a_b_c"` one application gives `"aBC"` (resp. `"ABC"`), and a second
application gives `"aBc"` (resp. `"Abc"`), because re-snake-casing keeps
the consecutive-uppercase run `BC` together. -/
theorem C2_counterexample :
    apply_case_style (apply_case_style (str2l "a_b_c") (str2l "camel")) (str2l "camel") ≠
      apply_case_style (str2l "a_b_c") (str2l "camel") ∧
    apply_case_style (apply_case_style (str2l "a_b_c") (str2l "pascal")) (str2l "pascal") ≠
      apply_case_style (str2l "a_b_c") (str2l "pascal") := by
  constructor <;> decide

/-- C2 (amended): the case transform is idempotent for the `snake`
style: `toCase(toCase(x, snake), snake) = toCase(x, snake)` for every
string `x`.  (It is not idempotent for `camel` or `pascal`.) -/
theorem C2_snake_idempotent (x : PStr) :
    apply_case_style (apply_case_style x (str2l "snake")) (str2l "snake") =
      apply_case_style x (str2l "snake") := by
  simp only [apply_case_style, if_pos rfl]
  exact to_snake_case_idem x

/-! ## Flattening scenarios -/

/-- C3: on the model `{name: primitive, address: [composite{line:
primitive}]}` with `max_depth: 1`, the recursive calls for `address_0`
and `address_1` hit the depth cutoff, so flattening yields exactly
`["name"]` and no `address` column at all. -/
theorem C3_depth1_scenario : flatten_schema demoModel cfgDepth1 [] 0 = [str2l "name"] := by
  decide

/-- C4: on the model `{name: primitive, address: [composite{line:
primitive}]}` with `max_depth: 2, max_array_items: 2, separator: "_",
case: snake`, flattening yields exactly
`["name", "address_0_line", "address_1_line"]` in that order. -/
theorem C4_depth2_scenario :
    flatten_schema demoModel cfgDepth2 [] 0 =
      [str2l "name", str2l "address_0_line", str2l "address_1_line"] := by
  decide

/-! ## Unfolding `flatten_schema` as the source function -/

theorem flattenField_congr
    (r₁ r₂ : List (PStr × Ty InnerTy) → PStr → Nat → List PStr)
    (config : SchemaConfig) (pfx : PStr) (depth : Nat) (fld : PStr × Ty InnerTy)
    (h : ∀ fs p, r₁ fs p (depth + 1) = r₂ fs p (depth + 1)) :
    flattenField r₁ config pfx depth fld = flattenField r₂ config pfx depth fld := by
  simp only [flattenField, h]

theorem flatten_schema_eq (fields : List (PStr × Ty InnerTy)) (config : SchemaConfig)
    (pfx : PStr) (depth : Nat) :
    flatten_schema fields config pfx depth =
      if config.max_depth ≤ (depth : Int) then []
      else fields.flatMap
        (flattenField (fun fs p d => flatten_schema fs config p d) config pfx depth) := by
  by_cases h : config.max_depth ≤ (depth : Int)
  · rw [if_pos h]
    unfold flatten_schema
    rw [show (config.max_depth - (depth : Int)).toNat = 0 from by omega]
    rfl
  · rw [if_neg h]
    unfold flatten_schema
    rw [show (config.max_depth - (depth : Int)).toNat =
        (config.max_depth - ((depth + 1 : Nat) : Int)).toNat + 1 from by push_cast; omega]
    simp only [flattenF, if_neg h]
    exact congrArg (List.flatMap fields) (funext fun fld =>
      flattenField_congr _ _ config pfx depth fld (fun fs p => rfl))

/-! ## C8: exclusion precedence -/

/-- C8: a field whose name is in both `include_fields` and
`exclude_fields` contributes no column, at every depth: flattening a
model containing such a field equals flattening the model with the field
removed. -/
theorem C8_exclusion_precedence (config : SchemaConfig)
    (pre post : List (PStr × Ty InnerTy)) (name : PStr) (ty : Ty InnerTy)
    (pfx : PStr) (depth : Nat)
    (h1 : name ∈ config.exclude_fields) (h2 : name ∈ config.include_fields) :
    flatten_schema (pre ++ (name, ty) :: post) config pfx depth =
      flatten_schema (pre ++ post) config pfx depth := by
  rw [flatten_schema_eq, flatten_schema_eq (pre ++ post)]
  by_cases h : config.max_depth ≤ (depth : Int)
  · rw [if_pos h, if_pos h]
  · rw [if_neg h, if_neg h]
    rw [List.flatMap_append, List.flatMap_append, List.flatMap_cons]
    have hskip :
        flattenField (fun fs p d => flatten_schema fs config p d) config pfx depth (name, ty)
          = [] := by
      simp only [flattenField]
      rw [if_pos h1]
    rw [hskip, List.nil_append]

/-- C8 witness at a concrete input. -/
theorem C8_witness :
    flatten_schema ([] ++ (str2l "a", Ty.base (InnerTy.prim "str")) :: []) cfgBoth [] 0 =
      flatten_schema ([] ++ []) cfgBoth [] 0 :=
  C8_exclusion_precedence cfgBoth [] [] (str2l "a") (Ty.base (InnerTy.prim "str")) [] 0
    (by decide) (by decide)

/-! ## C7: `max_array_items = 0` -/

theorem flatMap_of_filter_out {α β : Type} (p : α → Bool) (f : α → List β) :
    ∀ (l : List α), (∀ a ∈ l, p a = false → f a = []) →
      (l.filter p).flatMap f = l.flatMap f := by
  intro l
  induction l with
  | nil => intro _; rfl
  | cons a rest ih =>
    intro h
    have hrest := ih (fun b hb => h b (List.mem_cons_of_mem a hb))
    by_cases ha : p a = true
    · rw [List.filter_cons_of_pos ha, List.flatMap_cons, List.flatMap_cons, hrest]
    · have ha' : p a = false := by simpa using ha
      rw [List.filter_cons_of_neg (by simp [ha']), List.flatMap_cons, hrest,
        h a (List.mem_cons_self a rest) ha', List.nil_append]

/-- C7: with `max_array_items = 0`, every list-typed field contributes
zero columns while the remaining fields contribute exactly as usual:
flattening a model equals flattening the model with its list-typed
fields removed. -/
theorem C7_max_array_items_zero (config : SchemaConfig)
    (fields : List (PStr × Ty InnerTy)) (pfx : PStr) (depth : Nat)
    (h : config.max_array_items = 0) :
    flatten_schema fields config pfx depth =
      flatten_schema
        (fields.filter fun fld => !(unwrap_optional_and_list fld.2).2.1)
        config pfx depth := by
  rw [flatten_schema_eq, flatten_schema_eq]
  by_cases hd : config.max_depth ≤ (depth : Int)
  · rw [if_pos hd, if_pos hd]
  · rw [if_neg hd, if_neg hd]
    refine (flatMap_of_filter_out _ _ fields ?_).symm
    intro fld _ hfld
    have hl : (unwrap_optional_and_list fld.2).2.1 = true := by
      simpa using hfld
    simp only [flattenField]
    split
    · rfl
    · split
      · rfl
      · simp [hl, h]

/-- C7 witness at a concrete input. -/
theorem C7_witness :
    flatten_schema demoModel cfgNoArr [] 0 =
      flatten_schema
        (demoModel.filter fun fld => !(unwrap_optional_and_list fld.2).2.1)
        cfgNoArr [] 0 :=
  C7_max_array_items_zero cfgNoArr demoModel [] 0 (by decide)

/-! ## C9: negative configuration values -/

theorem flattenF_mai_nonpos (config : SchemaConfig) (h : config.max_array_items ≤ 0) :
    ∀ (fuel : Nat) (fields : List (PStr × Ty InnerTy)) (pfx : PStr) (depth : Nat),
      flattenF fuel fields config pfx depth =
        flattenF fuel fields { config with max_array_items := 0 } pfx depth := by
  intro fuel
  induction fuel with
  | zero => intro fields pfx depth; rfl
  | succ n ih =>
    intro fields pfx depth
    by_cases hd : config.max_depth ≤ (depth : Int)
    · simp only [flattenF]
      rw [if_pos hd, if_pos hd]
    · simp only [flattenF]
      rw [if_neg hd, if_neg hd]
      refine congrArg (List.flatMap fields) (funext fun fld => ?_)
      simp only [flattenField, Int.toNat_of_nonpos h, Int.toNat_zero, ih]

/-- C9: negative configuration values are clamped rather than failing:
with a negative `max_depth` flattening returns the same (empty) result
as with `max_depth = 0`, and with a negative `max_array_items` it
returns the same result as with `max_array_items = 0`. -/
theorem C9_negative_clamped (config : SchemaConfig)
    (fields : List (PStr × Ty InnerTy)) (pfx : PStr) (depth : Nat) :
    (config.max_depth < 0 →
      flatten_schema fields config pfx depth = [] ∧
      flatten_schema fields config pfx depth =
        flatten_schema fields { config with max_depth := 0 } pfx depth) ∧
    (config.max_array_items < 0 →
      flatten_schema fields config pfx depth =
        flatten_schema fields { config with max_array_items := 0 } pfx depth) := by
  constructor
  · intro h
    have h1 : flatten_schema fields config pfx depth = [] := by
      rw [flatten_schema_eq, if_pos (by omega)]
    have h2 : flatten_schema fields { config with max_depth := 0 } pfx depth = [] := by
      rw [flatten_schema_eq, if_pos (by simp)]
    exact ⟨h1, h1.trans h2.symm⟩
  · intro h
    exact flattenF_mai_nonpos config (Int.le_of_lt h)
      (config.max_depth - (depth : Int)).toNat fields pfx depth

/-- C9 witness at a concrete input. -/
theorem C9_witness :
    (flatten_schema demoModel cfgNegD [] 0 = [] ∧
      flatten_schema demoModel cfgNegD [] 0 =
        flatten_schema demoModel { cfgNegD with max_depth := 0 } [] 0) ∧
    flatten_schema demoModel cfgNegA [] 0 =
      flatten_schema demoModel { cfgNegA with max_array_items := 0 } [] 0 :=
  ⟨(C9_negative_clamped cfgNegD demoModel [] 0).1 (by decide),
   (C9_negative_clamped cfgNegA demoModel [] 0).2 (by decide)⟩

/-! ## C6: totality and boundedness of flattening -/

theorem length_flatMap_range_le {β : Type} (g : Nat → List β) (B : Nat) :
    ∀ (k : Nat), (∀ i, (g i).length ≤ B) → ((List.range k).flatMap g).length ≤ k * B := by
  intro k
  induction k with
  | zero => intro _; simp
  | succ n ih =>
    intro h
    rw [List.range_succ n, List.flatMap_append, List.length_append, List.flatMap_cons]
    have : (g n ++ [].flatMap g).length ≤ B := by
      simpa using h n
    calc ((List.range n).flatMap g).length + (g n ++ [].flatMap g).length
        ≤ n * B + B := Nat.add_le_add (ih h) this
      _ = (n + 1) * B := by ring

theorem flattenField_length_le (config : SchemaConfig) (n : Nat) (pfx : PStr)
    (depth : Nat) (fld : PStr × Ty InnerTy)
    (ih : ∀ fs p d, (flattenF n fs config p d).length ≤
        flatten_bound n fs config.max_array_items) :
    (flattenField (fun fs p d => flattenF n fs config p d) config pfx depth fld).length ≤
      fieldBound (fun fs => flatten_bound n fs config.max_array_items)
        config.max_array_items fld := by
  simp only [flattenField, fieldBound]
  split
  · exact Nat.zero_le _
  · split
    · exact Nat.zero_le _
    · by_cases hl : (unwrap_optional_and_list fld.2).2.1 = true
      · rw [if_pos hl, if_pos hl]
        by_cases hp : is_primitive_type (unwrap_optional_and_list fld.2).2.2 = true
        · rw [if_pos hp, if_pos hp]
          simp
        · rw [if_neg hp, if_neg hp]
          by_cases hm : is_pydantic_model (unwrap_optional_and_list fld.2).2.2 = true
          · rw [if_pos hm]
            refine length_flatMap_range_le _ _ _ (fun i => ?_)
            rw [if_pos hm]
            exact ih _ _ _
          · rw [if_neg hm]
            have : ∀ i : Nat,
                ((if is_pydantic_model (unwrap_optional_and_list fld.2).2.2 = true then
                    flattenF n (innerFields (unwrap_optional_and_list fld.2).2.2) config
                      ((if pfx ≠ [] then pfx ++ config.separator ++ fld.1 else fld.1) ++
                        config.separator ++ natStr i) (depth + 1)
                  else
                    [apply_case_style
                      ((if pfx ≠ [] then pfx ++ config.separator ++ fld.1 else fld.1) ++
                        config.separator ++ natStr i) config.case_style]) : List PStr).length
                  ≤ 1 := by
              intro i
              rw [if_neg hm]
              simp
            calc _ ≤ config.max_array_items.toNat * 1 :=
                  length_flatMap_range_le _ _ _ this
              _ = config.max_array_items.toNat := Nat.mul_one _
      · rw [if_neg hl, if_neg hl]
        by_cases hm : is_pydantic_model (unwrap_optional_and_list fld.2).2.2 = true
        · rw [if_pos hm, if_pos hm]
          exact ih _ _ _
        · rw [if_neg hm, if_neg hm]
          simp

theorem flattenF_length_le (config : SchemaConfig) :
    ∀ (fuel : Nat) (fields : List (PStr × Ty InnerTy)) (pfx : PStr) (depth : Nat),
      (flattenF fuel fields config pfx depth).length ≤
        flatten_bound fuel fields config.max_array_items := by
  intro fuel
  induction fuel with
  | zero => intro fields pfx depth; simp [flattenF, flatten_bound]
  | succ n ih =>
    intro fields pfx depth
    simp only [flattenF, flatten_bound]
    split
    · simp
    · induction fields with
      | nil => simp
      | cons fld rest ihf =>
        rw [List.flatMap_cons, List.length_append, List.foldr_cons]
        exact Nat.add_le_add (flattenField_length_le config n pfx depth fld ih) ihf

/-- C6: the flattening function is total — it is defined as a total Lean
function for every model, configuration, prefix and depth — and its
result is a finite list whose length is bounded by `flatten_bound`, a
function only of the remaining depth budget (from `max_depth`), the
model, and `max_array_items`. -/
theorem C6_total_and_bounded (config : SchemaConfig)
    (fields : List (PStr × Ty InnerTy)) (pfx : PStr) (depth : Nat)
    (h1 : 0 ≤ config.max_depth) (h2 : 0 ≤ config.max_array_items) :
    (flatten_schema fields config pfx depth).length ≤
      flatten_bound (config.max_depth - (depth : Int)).toNat fields
        config.max_array_items :=
  flattenF_length_le config (config.max_depth - (depth : Int)).toNat fields pfx depth

/-- C6 witness at a concrete input. -/
theorem C6_witness :
    (flatten_schema demoModel cfgDepth2 [] 0).length ≤
      flatten_bound (cfgDepth2.max_depth - ((0 : Nat) : Int)).toNat demoModel
        cfgDepth2.max_array_items :=
  C6_total_and_bounded cfgDepth2 demoModel [] 0 (by decide) (by decide)

/-! ## C5: index-based characterization of the snake transform -/

theorem snakeAux_cons (p : Option Nat) (c : Nat) (rest : PStr) :
    snakeAux p (c :: rest) = emitSpec p c rest.head? ++ snakeAux (some c) rest := by
  cases p <;> cases rest <;> rfl

theorem snakeAux_eq_range :
    ∀ (xs : PStr) (p : Option Nat),
      snakeAux p xs = (List.range xs.length).flatMap (fun i =>
        emitSpec (if i = 0 then p else some (xs.getD (i - 1) 0)) (xs.getD i 0)
          (if i + 1 < xs.length then some (xs.getD (i + 1) 0) else none)) := by
  intro xs
  induction xs with
  | nil => intro p; rfl
  | cons c rest ih =>
    intro p
    rw [snakeAux_cons, List.length_cons, List.range_succ_eq_map rest.length,
      List.flatMap_cons, List.flatMap_map]
    congr 1
    · cases rest <;> simp
    · rw [ih (some c)]
      refine List.flatMap_congr (fun i _ => ?_)
      cases i with
      | zero =>
        simp
        congr 1
        exact if_congr (by omega) rfl rfl
      | succ j => simp [Nat.add_lt_add_iff_right]

theorem snakeSpec_eq_range (name : PStr) :
    snakeSpec name = (List.range name.length).flatMap (fun i =>
      emitSpec (if i = 0 then none else some (name.getD (i - 1) 0)) (name.getD i 0)
        (if i + 1 < name.length then some (name.getD (i + 1) 0) else none)) := by
  refine List.flatMap_congr (fun i _ => ?_)
  cases i with
  | zero => simp [emitSpec]
  | succ j =>
    by_cases hn : j + 1 + 1 < name.length <;> simp [emitSpec, hn]

/-- C5: for every string, the snake transform inserts an underscore
before exactly those uppercase characters that are not the first
character and are preceded or followed by a lowercase character, and
lowercases every character of the result (stated by equality with the
index-based `snakeSpec`); the empty string maps to the empty string. -/
theorem C5_snake_characterization (name : PStr) :
    to_snake_case name = snakeSpec name ∧ to_snake_case ([] : PStr) = [] := by
  refine ⟨?_, rfl⟩
  rw [to_snake_case, snakeAux_eq_range name none, snakeSpec_eq_range]

/-! ## C10: relation between the pascal and camel transforms -/

theorem pySplit_ne_nil (sep : Nat) : ∀ (xs : PStr), pySplit sep xs ≠ [] := by
  intro xs
  cases xs with
  | nil => simp [pySplit]
  | cons a rest =>
    cases hsp : pySplit sep rest with
    | nil => simp [pySplit, hsp]
    | cons p ps =>
      by_cases ha : a = sep <;> simp [pySplit, hsp, ha]

theorem mem_flatten_pySplit (sep : Nat) :
    ∀ (xs : PStr) {c : Nat}, c ∈ (pySplit sep xs).flatten → c ∈ xs := by
  intro xs
  induction xs with
  | nil =>
    intro c hc
    simp [pySplit] at hc
  | cons a rest ih =>
    intro c hc
    cases hsp : pySplit sep rest with
    | nil =>
      have hps : pySplit sep (a :: rest) = [[a]] := by
        simp [pySplit, hsp]
      rw [hps] at hc
      simp at hc
      simp [hc]
    | cons p ps =>
      by_cases ha : a = sep
      · have hps : pySplit sep (a :: rest) = [] :: p :: ps := by
          simp [pySplit, hsp, ha]
        rw [hps, List.flatten_cons, List.nil_append] at hc
        have : c ∈ (pySplit sep rest).flatten := by
          rw [hsp]
          exact hc
        exact List.mem_cons_of_mem a (ih this)
      · have hps : pySplit sep (a :: rest) = (a :: p) :: ps := by
          simp [pySplit, hsp, ha]
        rw [hps, List.flatten_cons, List.cons_append] at hc
        rcases List.mem_cons.mp hc with rfl | hc'
        · exact List.mem_cons_self _ _
        · have : c ∈ (pySplit sep rest).flatten := by
            rw [hsp, List.flatten_cons]
            exact hc'
          exact List.mem_cons_of_mem a (ih this)

theorem map_pyToLower_id {w : PStr} (h : ∀ c ∈ w, pyIsUpper c = false) :
    w.map pyToLower = w :=
  (List.map_congr_left (fun c hc => pyToLower_of_not_upper (h c hc))).trans (List.map_id w)

theorem upperFirst_flatten_caps :
    ∀ (ps : List PStr),
      upperFirst ((ps.map pyCapitalize).flatten) = (ps.map pyCapitalize).flatten := by
  intro ps
  induction ps with
  | nil => rfl
  | cons q ps ih =>
    cases q with
    | nil => simpa [pyCapitalize] using ih
    | cons d t => simp [pyCapitalize, upperFirst, pyToUpper_pyToUpper]

theorem pascal_eq_upperFirst_camel (x : PStr) :
    to_pascal_case x = upperFirst (to_camel_case x) := by
  unfold to_pascal_case to_camel_case
  cases h : pySplit usc (to_snake_case x) with
  | nil => rfl
  | cons p ps =>
    simp only [List.map_cons, List.flatten_cons]
    cases p with
    | nil =>
      simp only [pyCapitalize, List.nil_append]
      exact (upperFirst_flatten_caps ps).symm
    | cons d t =>
      have ht : t.map pyToLower = t := by
        refine map_pyToLower_id (fun c hc => ?_)
        have hmem : c ∈ (pySplit usc (to_snake_case x)).flatten := by
          rw [h, List.flatten_cons]
          exact List.mem_append_left _ (List.mem_cons_of_mem d hc)
        exact mem_snakeAux_not_upper x none (mem_flatten_pySplit usc _ hmem)
      simp [pyCapitalize, upperFirst, ht]

theorem camel_head_fixed (c : Nat) (rest : PStr) (hc : pyIsLetter c = false) :
    upperFirst (to_camel_case (c :: rest)) = to_camel_case (c :: rest) := by
  have hcu : pyIsUpper c = false := by
    simp only [pyIsLetter, Bool.or_eq_false_iff] at hc
    exact hc.1
  have hcl : pyIsLower c = false := by
    simp only [pyIsLetter, Bool.or_eq_false_iff] at hc
    exact hc.2
  have hsnake : to_snake_case (c :: rest) = c :: snakeAux (some c) rest := by
    simp [to_snake_case, snakeAux, pyToLower_of_not_upper hcu]
  unfold to_camel_case
  rw [hsnake]
  cases hsp : pySplit usc (snakeAux (some c) rest) with
  | nil => exact absurd hsp (pySplit_ne_nil usc _)
  | cons p ps =>
    by_cases ha : c = usc
    · subst ha
      have hps : pySplit usc (usc :: snakeAux (some usc) rest) = [] :: p :: ps := by
        simp [pySplit, hsp]
      rw [hps]
      simpa using upperFirst_flatten_caps (p :: ps)
    · have hps : pySplit usc (c :: snakeAux (some c) rest) = (c :: p) :: ps := by
        simp [pySplit, hsp, ha]
      rw [hps]
      simp [upperFirst, pyToUpper_of_not_lower hcl]

/-- C10: the pascal transform is the camel transform with the initial
character converted to uppercase; in particular the two coincide when
the input is empty or starts with a non-letter character. -/
theorem C10_pascal_is_capitalized_camel (x : PStr) :
    to_pascal_case x = upperFirst (to_camel_case x) ∧
    (pyIsLetter (x.headD 0) = false → to_pascal_case x = to_camel_case x) := by
  refine ⟨pascal_eq_upperFirst_camel x, fun h => ?_⟩
  cases x with
  | nil => rfl
  | cons c rest =>
    rw [pascal_eq_upperFirst_camel (c :: rest)]
    exact camel_head_fixed c rest (by simpa using h)

/-- C10 witness at a concrete input. -/
theorem C10_witness :
    to_pascal_case (str2l "1a") = to_camel_case (str2l "1a") :=
  (C10_pascal_is_capitalized_camel (str2l "1a")).2 (by decide)
